import Mathlib

/-!
Verification of the media-downloader pipeline (`src/processor/index.mjs` and
`src/processor/videoAnalysis.mjs`) against its natural-language specification.

We shallowly embed the pure decision logic of the source: strings are either
Lean `String`s (where only equality and structural operations matter) or
`List Char` (where character-level operations such as `trim` and splitting on
a two-character separator must be modelled precisely).  External effects
(child processes, S3, DynamoDB, the Telegram HTTP API) are modelled by
explicit state passing or by oracle parameters carrying the outcome the
collaborator would return; the control flow around those outcomes is
translated line by line from the source.
-/

namespace MediaDownloader

/-! ## MediaFetcher file discovery (index.mjs, downloadMedia, lines 440-457)

On child-process exit the handler lists the working directory and picks
`files.find(f => !f.endsWith('.part') && !f.endsWith('.ytdl'))`; if none is
found it rejects, otherwise it resolves with that file. -/

/-- JavaScript `s.endsWith(suffix)`, computed on the character list (kernel-
reducible, unlike `String.endsWith`). -/
def strEndsWith (s suffix : String) : Bool :=
  List.isSuffixOf suffix.toList s.toList

/-- JavaScript `s.split(c)` for a single-character separator, on the
character list. -/
def splitOnChar (c : Char) : List Char → List (List Char)
  | [] => [[]]
  | x :: rest =>
    if x = c then [] :: splitOnChar c rest
    else
      let r := splitOnChar c rest
      (x :: r.headD []) :: r.tail

/-- A directory entry qualifies as the downloaded artifact when its name ends
neither in `.part` nor in `.ytdl` (index.mjs line 443). -/
def isQualifyingFile (f : String) : Bool :=
  !(strEndsWith f ".part") && !(strEndsWith f ".ytdl")

/-- `files.find(...)` over the directory listing (index.mjs line 443). -/
def findDownloadedFile (files : List String) : Option String :=
  files.find? isQualifyingFile

/-- Outcome of the `close` handler of `downloadMedia` (index.mjs lines
428-458): nonzero exit code rejects with the captured stderr; exit code 0
resolves with the first qualifying file, or rejects when there is none.
(`Except.error` additionally signals that the working directory was
deleted, which the source does on every rejection path.) -/
def downloadMediaClose (code : Int) (stderr : String) (files : List String) :
    Except String String :=
  if code ≠ 0 then
    Except.error ("yt-dlp exited with code: " ++ stderr)
  else
    match findDownloadedFile files with
    | none => Except.error "Downloaded file not found in temp dir"
    | some f => Except.ok f

/-! ## Telegram direct-upload size gate (index.mjs, uploadToTelegram, 121-129)

`fileSizeInMB = bytes / (1024*1024); if (fileSizeInMB > 50) return false;`
The byte count of any real artifact is below 2^53, so the JavaScript double
division by 2^20 is exact; we model it with exact rational arithmetic. -/

/-- Result of `uploadToTelegram`: either the size gate skipped the transport
call entirely (returning `false`), or the transport call was attempted and
its outcome returned. -/
inductive UploadOutcome
  | skipped
  | attempted (ok : Bool)
  deriving DecidableEq, Repr

/-- The size-gated direct upload (index.mjs lines 121-129): compute the size
in MB, skip when strictly greater than 50, otherwise perform the transport
call whose outcome is the oracle `transportOk`. -/
def uploadToTelegram (fileSizeInBytes : Nat) (transportOk : Bool) : UploadOutcome :=
  if (fileSizeInBytes : ℚ) / (1024 * 1024) > 50 then
    UploadOutcome.skipped
  else
    UploadOutcome.attempted transportOk

/-! ## Progress-notification throttle (index.mjs, downloadMedia, 271-346)

Each parsed progress line is classified as either a percent/speed tick or a
phase change to postprocess.  The shared mutable state is `lastUpdateTime`
(initialised to 0 so that the first update fires immediately); the throttle
constant is `UPDATE_INTERVAL = 2000` ms.  A percent tick notifies only when
`now - lastUpdateTime >= UPDATE_INTERVAL` (line 326); a postprocess phase
change bypasses the check and always notifies (lines 291-304). -/

/-- A progress event already parsed out of one yt-dlp output line
(JSON template or bracketed fallback, index.mjs lines 286-321). -/
inductive ProgressEvent
  | percent (percent speed : String)
  | postprocess
  deriving DecidableEq, Repr

/-- ms between notifications (index.mjs line 272). -/
def UPDATE_INTERVAL : Nat := 2000

/-- State of the throttle: the timestamp of the last notification;
starts at 0 (index.mjs line 271). -/
structure ThrottleState where
  lastUpdateTime : Nat
  deriving DecidableEq, Repr

/-- Initial throttle state: `let lastUpdateTime = 0` (index.mjs line 271). -/
def initialThrottle : ThrottleState := ⟨0⟩

/-- Processing one parsed progress event at wall-clock time `now`
(ms since epoch).  Returns the new state and whether the downstream
notifications (DynamoDB update and Telegram edit) were fired. -/
def handleProgressEvent (st : ThrottleState) (ev : ProgressEvent) (now : Nat) :
    ThrottleState × Bool :=
  match ev with
  | ProgressEvent.postprocess => (⟨now⟩, true)
  | ProgressEvent.percent _ _ =>
      if UPDATE_INTERVAL ≤ now - st.lastUpdateTime then (⟨now⟩, true)
      else (st, false)

/-! ## FrameSampler post-filter (videoAnalysis.mjs, extractFrames, 81-93)

```
if (frames.length > 35) {
    const step = Math.floor(frames.length / 35);
    return frames.filter((_, i) => i % step === 0).slice(0, 35);
}
return frames;
```
`Array.prototype.filter` with an index argument is modelled by `filterIdx`. -/

/-- JavaScript `array.filter((_, i) => p i)` starting at index `i`. -/
def filterIdx (p : Nat → Bool) : Nat → List α → List α
  | _, [] => []
  | i, x :: xs => if p i then x :: filterIdx p (i + 1) xs else filterIdx p (i + 1) xs

/-- The 35-frame cap of `extractFrames` (videoAnalysis.mjs lines 86-92). -/
def postFilterFrames (frames : List α) : List α :=
  if 35 < frames.length then
    (filterIdx (fun i => i % (frames.length / 35) == 0) 0 frames).take 35
  else
    frames

/-! ## StoredFile conditional create (index.mjs, trackFile, 552-579)

`trackFile` issues a `PutItem` with
`ConditionExpression: 'attribute_not_exists(file_key)'` and swallows
`ConditionalCheckFailedException` (any other error is logged and also not
rethrown).  The files table is modelled as an association list from
`file_key` to the stored item. -/

/-- The item written to the files table (index.mjs lines 561-570);
`created_at` and `ttl` are the timestamps computed at line 557. -/
structure FileRecord where
  source_type : String
  title : String
  url : String
  username : String
  size_mb : String
  created_at : String
  ttl : Nat
  deriving DecidableEq, Repr

/-- The DynamoDB files table: newest entry first; a key occurs at most once
because every insert is conditional on absence. -/
abbrev FilesTable := List (String × FileRecord)

/-- Lookup in the files table. -/
def tableLookup (t : FilesTable) (key : String) : Option FileRecord :=
  match t with
  | [] => none
  | (k, v) :: rest => if k = key then some v else tableLookup rest key

/-- A conditional `PutItem` with `attribute_not_exists(file_key)`: fails with
`ConditionalCheckFailedException` when the key exists, leaving the table
unchanged; otherwise inserts the item. -/
def ddbConditionalPut (t : FilesTable) (key : String) (item : FileRecord) :
    FilesTable × Except String Unit :=
  match tableLookup t key with
  | some _ => (t, Except.error "ConditionalCheckFailedException")
  | none => ((key, item) :: t, Except.ok ())

/-- `trackFile` (index.mjs lines 552-579): attempts the conditional put and
catches every error — a `ConditionalCheckFailedException` silently, anything
else after logging — so the caller always sees a normal return
(`Except.ok`). -/
def trackFile (t : FilesTable) (key : String) (item : FileRecord) :
    FilesTable × Except String Unit :=
  match ddbConditionalPut t key item with
  | (t2, Except.ok _) => (t2, Except.ok ())
  | (t2, Except.error _) => (t2, Except.ok ())

/-! ## S3 upload with dedup (index.mjs, uploadToS3, 468-512)

`uploadToS3` derives the key from the source type and the path's filename,
issues `HeadObject`, and on success returns a 7-day signed URL without
putting; on a `NotFound` error (silently) or any other error (after logging)
it falls through to `PutObject` and then returns the same-shape signed URL.
The bucket is modelled as the list of keys present (with content type);
the head call can be given an injected fault name to model a failing check. -/

/-- Shape of a pre-signed URL: the key it addresses and its TTL in seconds
(`expiresIn: 7 * 24 * 60 * 60`, index.mjs line 481/508). -/
structure SignedUrl where
  key : String
  expiresIn : Nat
  deriving DecidableEq, Repr

/-- The bucket state: keys present, each with the content type it was put
with. -/
abbrev Bucket := List (String × String)

/-- Does the bucket contain the key? (`HeadObject` succeeding). -/
def bucketHas (b : Bucket) (key : String) : Bool :=
  b.any (fun kv => kv.1 == key)

/-- Result of one `uploadToS3` call: the bucket afterwards, the number of
`PutObject` calls performed, and the returned signed URL. -/
structure S3UploadResult where
  bucket : Bucket
  putCount : Nat
  url : SignedUrl

/-- `filePath.split('/').pop()` (index.mjs line 469). -/
def s3Filename (filePath : String) : String :=
  String.mk ((splitOnChar '/' filePath.toList).getLastD [])

/-- The storage key `downloads/SOURCETYPE/FILENAME` (index.mjs line 471). -/
def s3Key (filePath sourceType : String) : String :=
  "downloads/" ++ sourceType ++ "/" ++ s3Filename filePath

/-- The content type derived from the filename extension
(index.mjs lines 470 and 497). -/
def s3ContentType (filePath : String) : String :=
  if String.mk ((splitOnChar '.' (s3Filename filePath).toList).getLastD []) = "mp3"
  then "audio/mpeg" else "video/mp4"

/-- `uploadToS3` (index.mjs lines 468-512).  `headFault` injects an error
thrown by the head check (`some name`), `none` meaning the check reports
truthfully (success when the key exists, a `NotFound` error otherwise). -/
def uploadToS3 (b : Bucket) (filePath sourceType : String)
    (headFault : Option String) : S3UploadResult :=
  match headFault with
  | some _ =>
      -- the check threw: non-NotFound names are logged, then either way the
      -- code falls through to the upload (index.mjs lines 483-488)
      ⟨(s3Key filePath sourceType, s3ContentType filePath) :: b, 1,
        ⟨s3Key filePath sourceType, 7 * 24 * 60 * 60⟩⟩
  | none =>
      if bucketHas b (s3Key filePath sourceType) then
        -- head succeeded: skip the upload, return the signed URL
        ⟨b, 0, ⟨s3Key filePath sourceType, 7 * 24 * 60 * 60⟩⟩
      else
        -- head raised NotFound: proceed to upload
        ⟨(s3Key filePath sourceType, s3ContentType filePath) :: b, 1,
          ⟨s3Key filePath sourceType, 7 * 24 * 60 * 60⟩⟩

/-! ## Analysis orchestrator audio degradation (videoAnalysis.mjs, 621-677)

`analyzeVideo` runs a visual task and an audio task in parallel and feeds
both results to `synthesizeAnalysis`.  The audio task initialises
`transcript = '[No audio detected]'`, only reassigns it when `extractAudio`
reported a track and `transcribeAudio` returned (a transcription error is
caught and logged, leaving the sentinel), and never throws. -/

/-- The sentinel transcript (videoAnalysis.mjs line 644). -/
def noAudioSentinel : String := "[No audio detected]"

/-- The audio task (videoAnalysis.mjs lines 642-661): `hasAudio` is the
boolean returned by `extractAudio`, `transcription` the outcome of
`transcribeAudio`.  Returns the transcript; total, because every
transcription error is caught. -/
def audioTask (hasAudio : Bool) (transcription : Except String String) : String :=
  if hasAudio then
    match transcription with
    | Except.ok t => t
    | Except.error _ => noAudioSentinel
  else
    noAudioSentinel

/-- `analyzeVideo` joined at the synthesis call (videoAnalysis.mjs lines
664-668): the visual track's narrative and the audio task's transcript are
passed to `synthesizeAnalysis`, modelled by the oracle `synthesize`. -/
def analyzeVideoSynthesis (hasAudio : Bool) (transcription : Except String String)
    (visualNarrative : String) (synthesize : String → String → String) : String :=
  synthesize visualNarrative (audioTask hasAudio transcription)

/-! ## Queue handler error containment (index.mjs, handler, 653-778)

The handler iterates over `event.Records`; each parsed body is either an
analysis request (dispatched to `handleAnalysisRequest`, which wraps its
whole body in try/catch) or a download request whose pipeline runs inside
`try { ... } catch { deleteActiveDownload; notify failure } finally
{ cleanupFile }`.  The fallible stages are modelled as `Except`-valued
oracles carried by the record (the Telegram notification calls themselves
return normally, per the transport contract of spec section 6); the
handler's per-record effects are collected in a trace. -/

/-- One parsed queue record: either an analysis request with the outcome of
`handleAnalysisRequest`'s try block, or a download request carrying the
outcomes of its fallible stages (index.mjs lines 670-716). -/
inductive QueueRecord
  | analyze (outcome : Except String Unit)
  | download (cookies : Except String (Option String))
      (fetch : Except String String)
      (upload : Except String SignedUrl)
      (deliver : Except String Bool)
  deriving Repr

/-- Observable per-record effects of the handler. -/
structure RecordTrace where
  failureNotified : Bool
  activeDeleted : Bool
  tempCleaned : Bool
  raised : Option String
  deriving DecidableEq, Repr

/-- The download pipeline inside the try block (index.mjs lines 670-752),
sequenced so that the first failing stage short-circuits; on success the
active-download record is deleted (line 752). -/
def runDownloadStages (cookies : Except String (Option String))
    (fetch : Except String String) (upload : Except String SignedUrl)
    (deliver : Except String Bool) : Except String Unit := do
  let _ ← cookies
  let _ ← fetch
  let _ ← upload
  let _ ← deliver
  pure ()

/-- Processing one record (index.mjs lines 656-775).  `filePath` is set only
once `downloadMedia` resolved, and the `finally` block cleans the artifact
directory exactly when it is set; the catch block deletes the job record and
edits/sends the failure message; no error escapes. -/
def handleRecord (r : QueueRecord) : RecordTrace :=
  match r with
  | QueueRecord.analyze outcome =>
      -- handleAnalysisRequest catches everything and sends a failure
      -- message (index.mjs lines 581-611)
      match outcome with
      | Except.ok _ => ⟨false, false, false, none⟩
      | Except.error _ => ⟨true, false, false, none⟩
  | QueueRecord.download cookies fetch upload deliver =>
      let gotFile := match cookies, fetch with
        | Except.ok _, Except.ok _ => true
        | _, _ => false
      match runDownloadStages cookies fetch upload deliver with
      | Except.ok _ => ⟨false, true, gotFile, none⟩
      | Except.error _ => ⟨true, true, gotFile, none⟩

/-- The handler (index.mjs lines 653-778): processes every record, then
returns `{ statusCode: 200 }` (modelled as the status code plus the traces
of all records, in order). -/
def handler (records : List QueueRecord) : Nat × List RecordTrace :=
  (200, records.map handleRecord)

/-! ## Message chunking (index.mjs, splitMessage, 633-651)

```
function splitMessage(text, maxLength) {
    const chunks = [];
    let currentChunk = '';
    const paragraphs = text.split('\n\n');
    for (const para of paragraphs) {
        if ((currentChunk + para).length > maxLength) {
            if (currentChunk) chunks.push(currentChunk.trim());
            currentChunk = para + '\n\n';
        } else {
            currentChunk += para + '\n\n';
        }
    }
    if (currentChunk) chunks.push(currentChunk.trim());
    return chunks;
}
```
Texts are `List Char` so that `trim` and the two-character separator can be
reasoned about character by character. -/

/-- The paragraph separator `'\n\n'`. -/
def sep : List Char := ['\n', '\n']

/-- JavaScript `String.prototype.trim`: drop whitespace from both ends
(`Char.isWhitespace` covers space, tab, CR and LF, matching the JS
whitespace class on the characters this pipeline produces). -/
def jsTrim (s : List Char) : List Char :=
  ((s.dropWhile Char.isWhitespace).reverse.dropWhile Char.isWhitespace).reverse

/-- JavaScript `text.split('\n\n')`: greedy leftmost split on the
two-character separator.  Never returns `[]`; splitting the empty string
yields `[[]]`. -/
def splitPara : List Char → List (List Char)
  | [] => [[]]
  | [c] => [[c]]
  | c1 :: c2 :: rest =>
    if c1 = '\n' ∧ c2 = '\n' then
      [] :: splitPara rest
    else
      let r := splitPara (c2 :: rest)
      (c1 :: r.headD []) :: r.tail

/-- The loop of `splitMessage` over the remaining paragraphs, carrying
`currentChunk` and the accumulated `chunks` (index.mjs lines 639-648). -/
def splitMsgGo (maxLength : Nat) :
    List (List Char) → List Char → List (List Char) → List (List Char)
  | [], current, chunks =>
      if current.isEmpty then chunks else chunks ++ [jsTrim current]
  | p :: ps, current, chunks =>
      if maxLength < (current ++ p).length then
        splitMsgGo maxLength ps (p ++ sep)
          (if current.isEmpty then chunks else chunks ++ [jsTrim current])
      else
        splitMsgGo maxLength ps (current ++ p ++ sep) chunks

/-- `splitMessage(text, maxLength)` (index.mjs lines 633-651). -/
def splitMessage (text : List Char) (maxLength : Nat) : List (List Char) :=
  splitMsgGo maxLength (splitPara text) [] []

/-- Chunks or paragraphs rejoined at paragraph boundaries. -/
def joinPara (l : List (List Char)) : List Char :=
  match l with
  | [] => []
  | [p] => p
  | p :: rest => p ++ sep ++ joinPara rest

/-- A paragraph is well-edged when it is nonempty and neither starts nor
ends with whitespace (so that `trim` on a chunk removes exactly the chunk's
trailing separator). -/
def wellEdged (p : List Char) : Bool :=
  match p.head?, p.getLast? with
  | some c, some d => !c.isWhitespace && !d.isWhitespace
  | _, _ => false

/-! ## Helper lemmas -/

lemma find?_append_first {α : Type} (q : α → Bool) (pre : List α) (f : α)
    (post : List α) (hpre : ∀ g ∈ pre, q g = false) (hf : q f = true) :
    (pre ++ f :: post).find? q = some f := by
  induction pre with
  | nil => simp [List.find?, hf]
  | cons a rest ih =>
      have ha : q a = false := hpre a (by simp)
      simp only [List.cons_append, List.find?, ha]
      exact ih (fun g hg => hpre g (by simp [hg]))

/-! ## C1: file discovery after exit code 0 -/

/-- C1 (corrected statement): when the child exits with code 0,
`downloadMedia` fails exactly when no qualifying (non-`.part`,
non-`.ytdl`) file is in the working directory; when one or more qualifying
files exist it resolves with the first of them in directory order — it does
not treat more than one qualifying file as an error. -/
theorem C1_close_first_qualifying (stderrText : String) (files : List String) :
    ((∀ f ∈ files, isQualifyingFile f = false) →
      downloadMediaClose 0 stderrText files =
        Except.error "Downloaded file not found in temp dir")
    ∧ (∀ pre f post, files = pre ++ f :: post →
        (∀ g ∈ pre, isQualifyingFile g = false) → isQualifyingFile f = true →
        downloadMediaClose 0 stderrText files = Except.ok f) := by
  constructor
  · intro h
    have hnone : findDownloadedFile files = none :=
      List.find?_eq_none.mpr (fun x hx => by simp [h x hx])
    simp [downloadMediaClose, hnone]
  · intro pre f post hsplit hpre hf
    have hfind : findDownloadedFile files = some f := by
      rw [hsplit]
      exact find?_append_first _ pre f post hpre hf
    simp [downloadMediaClose, hfind]

/-- C1 counterexample to the claim as stated: with exit code 0 and two
qualifying files in the working directory, the operation succeeds (with the
first file) instead of failing with a fatal error. -/
theorem C1_counterexample :
    isQualifyingFile "a.mp4" = true ∧ isQualifyingFile "b.mp4" = true ∧
    downloadMediaClose 0 "" ["a.mp4", "b.mp4"] = Except.ok "a.mp4" := by
  refine ⟨by decide, by decide, ?_⟩
  rfl

/-- C1 witness: the amended theorem applied to a directory with a partial
file followed by two qualifying files. -/
theorem C1_witness :
    downloadMediaClose 0 "" ["x.part", "a.mp4", "b.mp4"] = Except.ok "a.mp4" :=
  (C1_close_first_qualifying "" ["x.part", "a.mp4", "b.mp4"]).2
    ["x.part"] "a.mp4" ["b.mp4"] rfl (by decide) (by decide)

/-! ## C4: Telegram direct-upload size gate -/

/-- C4: the size gate is a strict greater-than comparison on the size in MB:
an artifact of exactly 52,428,800 bytes (50.00 MB) is within the threshold
and the transport call is attempted, while any strictly larger artifact is
skipped without attempting the transport call. -/
theorem C4_size_gate (bytes : Nat) (ok : Bool) :
    uploadToTelegram 52428800 ok = UploadOutcome.attempted ok
    ∧ (52428800 < bytes → uploadToTelegram bytes ok = UploadOutcome.skipped) := by
  constructor
  · unfold uploadToTelegram
    norm_num
  · intro h
    unfold uploadToTelegram
    rw [if_pos]
    rw [gt_iff_lt, lt_div_iff₀ (by norm_num)]
    have : (52428800 : ℚ) < (bytes : ℚ) := by exact_mod_cast h
    linarith

/-- C4 witness: one byte above 50 MB is skipped. -/
theorem C4_witness : uploadToTelegram 52428801 true = UploadOutcome.skipped :=
  (C4_size_gate 52428801 true).2 (by norm_num)

/-! ## C5: progress-notification throttle -/

/-- C5: a percent/speed progress line notifies only when at least
`UPDATE_INTERVAL` has elapsed since the last notification; from the initial
state (`lastUpdateTime = 0`) the first update always notifies (wall-clock
times in ms since the epoch satisfy `UPDATE_INTERVAL ≤ now`); a phase
transition to post-processing bypasses the throttle and always notifies. -/
theorem C5_throttle (st : ThrottleState) (now : Nat) (pct spd : String) :
    ((handleProgressEvent st (ProgressEvent.percent pct spd) now).2 = true →
      UPDATE_INTERVAL ≤ now - st.lastUpdateTime)
    ∧ (UPDATE_INTERVAL ≤ now →
      (handleProgressEvent initialThrottle (ProgressEvent.percent pct spd) now).2 = true)
    ∧ (handleProgressEvent st ProgressEvent.postprocess now).2 = true := by
  refine ⟨?_, ?_, rfl⟩
  · intro h
    by_contra hlt
    simp [handleProgressEvent, hlt] at h
  · intro h
    simp [handleProgressEvent, initialThrottle, h]

/-- C5 witness: at epoch time 2000 ms the first percent tick notifies; a
postprocess phase change notifies even 1 ms after the last notification. -/
theorem C5_witness :
    (handleProgressEvent initialThrottle (ProgressEvent.percent "50.0%" "1MiB/s") 2000).2 = true
    ∧ (handleProgressEvent ⟨2000⟩ ProgressEvent.postprocess 2001).2 = true :=
  ⟨(C5_throttle initialThrottle 2000 "50.0%" "1MiB/s").2.1 (by decide),
   (C5_throttle ⟨2000⟩ 2001 "50.0%" "1MiB/s").2.2⟩

/-! ## C8: audio-track degradation to the sentinel transcript -/

/-- C8: if audio extraction reports no track, or transcription fails, the
audio track yields the sentinel transcript, the error is not propagated
(`audioTask` is total), and synthesis receives the visual narrative together
with the sentinel verbatim. -/
theorem C8_audio_degradation (hasAudio : Bool) (transcription : Except String String)
    (visualNarrative : String) (synthesize : String → String → String)
    (h : hasAudio = false ∨ ∃ e, transcription = Except.error e) :
    audioTask hasAudio transcription = noAudioSentinel
    ∧ analyzeVideoSynthesis hasAudio transcription visualNarrative synthesize
      = synthesize visualNarrative noAudioSentinel := by
  have ht : audioTask hasAudio transcription = noAudioSentinel := by
    rcases h with h | ⟨e, h⟩
    · simp [audioTask, h]
    · cases hasAudio <;> simp [audioTask, h]
  exact ⟨ht, by simp [analyzeVideoSynthesis, ht]⟩

/-- C8 witness: no audio track detected, transcription would have
succeeded; synthesis still receives the sentinel. -/
theorem C8_witness :
    audioTask false (Except.ok "hello") = noAudioSentinel
    ∧ analyzeVideoSynthesis false (Except.ok "hello") "visual notes"
        (fun v t => v ++ t) = "visual notes" ++ noAudioSentinel :=
  C8_audio_degradation false (Except.ok "hello") "visual notes"
    (fun v t => v ++ t) (Or.inl rfl)

/-! ## C6: StoredFile conditional create -/

lemma tableLookup_none_keys {t : FilesTable} {k : String}
    (h : tableLookup t k = none) : ∀ kv ∈ t, (kv.1 == k) = false := by
  induction t with
  | nil => intro kv hkv; cases hkv
  | cons hd rest ih =>
      intro kv hkv
      by_cases hk : hd.1 = k
      · exfalso
        simp [tableLookup, hk] at h
      · have hrest : tableLookup rest k = none := by
          simpa [tableLookup, hk] using h
        rcases List.mem_cons.mp hkv with rfl | hmem
        · simp [hk]
        · exact ih hrest kv hmem

/-- C6: the StoredFile record is created with a conditional put on the
absence of `file_key`; starting from a table without the key, the first
attempt returns normally and writes its item, the second attempt with the
same key returns normally, leaves the table unchanged, and the first item
survives as the single record under that key. -/
theorem C6_trackFile_first_writer_wins (t0 : FilesTable) (k : String)
    (i1 i2 : FileRecord) (h : tableLookup t0 k = none) :
    (trackFile t0 k i1).2 = Except.ok ()
    ∧ (trackFile (trackFile t0 k i1).1 k i2).2 = Except.ok ()
    ∧ (trackFile (trackFile t0 k i1).1 k i2).1 = (trackFile t0 k i1).1
    ∧ tableLookup (trackFile (trackFile t0 k i1).1 k i2).1 k = some i1
    ∧ (trackFile (trackFile t0 k i1).1 k i2).1.countP (fun kv => kv.1 == k) = 1 := by
  have e1 : trackFile t0 k i1 = ((k, i1) :: t0, Except.ok ()) := by
    simp [trackFile, ddbConditionalPut, h]
  have e2 : trackFile ((k, i1) :: t0) k i2 = ((k, i1) :: t0, Except.ok ()) := by
    simp [trackFile, ddbConditionalPut, tableLookup]
  have hcount : t0.countP (fun kv => kv.1 == k) = 0 :=
    List.countP_eq_zero.mpr
      (fun kv hkv => by simp [tableLookup_none_keys h kv hkv])
  rw [e1]
  rw [e2]
  refine ⟨rfl, rfl, rfl, by simp [tableLookup], ?_⟩
  simp [List.countP_cons, hcount]

/-- C6 witness: two attempts against an initially empty table. -/
theorem C6_witness :
    (trackFile [] "downloads/youtube-short/v.mp4"
        ⟨"youtube-short", "v", "u1", "alice", "4.20", "t1", 100⟩).2 = Except.ok ()
    ∧ tableLookup (trackFile (trackFile [] "downloads/youtube-short/v.mp4"
        ⟨"youtube-short", "v", "u1", "alice", "4.20", "t1", 100⟩).1
        "downloads/youtube-short/v.mp4"
        ⟨"youtube-short", "v", "u2", "bob", "4.20", "t2", 200⟩).1
        "downloads/youtube-short/v.mp4"
      = some ⟨"youtube-short", "v", "u1", "alice", "4.20", "t1", 100⟩ :=
  ⟨(C6_trackFile_first_writer_wins [] "downloads/youtube-short/v.mp4"
      ⟨"youtube-short", "v", "u1", "alice", "4.20", "t1", 100⟩
      ⟨"youtube-short", "v", "u2", "bob", "4.20", "t2", 200⟩ rfl).1,
   (C6_trackFile_first_writer_wins [] "downloads/youtube-short/v.mp4"
      ⟨"youtube-short", "v", "u1", "alice", "4.20", "t1", 100⟩
      ⟨"youtube-short", "v", "u2", "bob", "4.20", "t2", 200⟩ rfl).2.2.2.1⟩

/-! ## C7: S3 upload idempotence per storage key -/

/-- C7: when the head check reports the derived key already exists the
function performs zero put operations and returns the same-shape signed URL
for the existing key; a not-found (or any other) head failure falls through
to the upload.  In particular a second run right after a first one is a pure
read returning the same URL. -/
theorem C7_uploadToS3_idempotent (b : Bucket) (filePath sourceType : String) :
    ((uploadToS3 (uploadToS3 b filePath sourceType none).bucket
        filePath sourceType none).putCount = 0
      ∧ (uploadToS3 (uploadToS3 b filePath sourceType none).bucket
          filePath sourceType none).bucket
        = (uploadToS3 b filePath sourceType none).bucket
      ∧ (uploadToS3 (uploadToS3 b filePath sourceType none).bucket
          filePath sourceType none).url
        = (uploadToS3 b filePath sourceType none).url)
    ∧ (bucketHas b (s3Key filePath sourceType) = true →
        (uploadToS3 b filePath sourceType none).putCount = 0)
    ∧ (∀ e, (uploadToS3 b filePath sourceType (some e)).putCount = 1) := by
  by_cases hb : bucketHas b (s3Key filePath sourceType) = true
  · refine ⟨⟨?_, ?_, ?_⟩, fun _ => ?_, fun e => ?_⟩ <;>
      simp [uploadToS3, hb]
  · have hb2 : bucketHas
        ((s3Key filePath sourceType, s3ContentType filePath) :: b)
        (s3Key filePath sourceType) = true := by
      simp [bucketHas]
    refine ⟨⟨?_, ?_, ?_⟩, fun hcontra => absurd hcontra hb, fun e => ?_⟩ <;>
      simp [uploadToS3, hb, hb2]

/-- C7 witness: first run on an empty bucket uploads once; second run skips
the write and returns the same URL; an injected head fault falls through to
an upload. -/
theorem C7_witness :
    (uploadToS3 (uploadToS3 [] "/tmp/u1/Clip [x1].mp4" "youtube-short" none).bucket
      "/tmp/u1/Clip [x1].mp4" "youtube-short" none).putCount = 0
    ∧ (uploadToS3 (uploadToS3 [] "/tmp/u1/Clip [x1].mp4" "youtube-short" none).bucket
        "/tmp/u1/Clip [x1].mp4" "youtube-short" none).url
      = (uploadToS3 [] "/tmp/u1/Clip [x1].mp4" "youtube-short" none).url
    ∧ (uploadToS3 [] "/tmp/u1/Clip [x1].mp4" "youtube-short"
        (some "AccessDenied")).putCount = 1 :=
  ⟨(C7_uploadToS3_idempotent [] "/tmp/u1/Clip [x1].mp4" "youtube-short").1.1,
   (C7_uploadToS3_idempotent [] "/tmp/u1/Clip [x1].mp4" "youtube-short").1.2.2,
   (C7_uploadToS3_idempotent [] "/tmp/u1/Clip [x1].mp4" "youtube-short").2.2
     "AccessDenied"⟩

/-! ## C10: handler error containment -/

lemma handleRecord_raised_none (r : QueueRecord) : (handleRecord r).raised = none := by
  cases r with
  | analyze outcome => cases outcome <;> rfl
  | download c f u d =>
      simp only [handleRecord]
      split <;> rfl

/-- C10: for every event whose bodies parsed, the handler processes every
record, never lets a per-record processing error escape (every trace's
`raised` is `none`), returns status code 200, and on a failed download
record it sends the failure notification, deletes the job record, and the
`finally` block cleans the working directory whenever the download stage
had produced a file. -/
theorem C10_handler_contains_errors (records : List QueueRecord) :
    (handler records).1 = 200
    ∧ (handler records).2.length = records.length
    ∧ (∀ t ∈ (handler records).2, t.raised = none)
    ∧ (∀ c f u d e, runDownloadStages c f u d = Except.error e →
        (handleRecord (QueueRecord.download c f u d)).failureNotified = true
        ∧ (handleRecord (QueueRecord.download c f u d)).activeDeleted = true)
    ∧ (∀ co fp u d,
        (handleRecord (QueueRecord.download (Except.ok co) (Except.ok fp) u d)).tempCleaned
          = true) := by
  refine ⟨rfl, by simp [handler], ?_, ?_, ?_⟩
  · intro t ht
    simp only [handler, List.mem_map] at ht
    obtain ⟨r, _, rfl⟩ := ht
    exact handleRecord_raised_none r
  · intro c f u d e he
    constructor <;> simp [handleRecord, he]
  · intro co fp u d
    simp only [handleRecord]
    split <;> rfl

/-- C10 witness: one failing download record (fetch stage rejects) and one
succeeding analysis record; the handler returns 200 and the failing record's
trace shows notification and job-record deletion with nothing raised. -/
theorem C10_witness :
    (handler [QueueRecord.download (Except.ok none) (Except.error "boom")
        (Except.ok ⟨"k", 604800⟩) (Except.ok true),
      QueueRecord.analyze (Except.ok ())]).1 = 200
    ∧ (handleRecord (QueueRecord.download (Except.ok none) (Except.error "boom")
        (Except.ok ⟨"k", 604800⟩) (Except.ok true))).failureNotified = true
    ∧ (handleRecord (QueueRecord.download (Except.ok none) (Except.error "boom")
        (Except.ok ⟨"k", 604800⟩) (Except.ok true))).activeDeleted = true
    ∧ (handleRecord (QueueRecord.download (Except.ok (some "/tmp/c.txt"))
        (Except.ok "/tmp/u/f.mp4") (Except.error "put failed")
        (Except.ok true))).tempCleaned = true := by
  refine ⟨(C10_handler_contains_errors _).1, ?_, ?_, ?_⟩
  · exact ((C10_handler_contains_errors []).2.2.2.1 (Except.ok none)
      (Except.error "boom") (Except.ok ⟨"k", 604800⟩) (Except.ok true) "boom" rfl).1
  · exact ((C10_handler_contains_errors []).2.2.2.1 (Except.ok none)
      (Except.error "boom") (Except.ok ⟨"k", 604800⟩) (Except.ok true) "boom" rfl).2
  · exact (C10_handler_contains_errors []).2.2.2.2 (some "/tmp/c.txt")
      "/tmp/u/f.mp4" (Except.error "put failed") (Except.ok true)

/-! ## C2: frame post-filter cap -/

lemma filterIdx_sublist (p : Nat → Bool) (i : Nat) (xs : List α) :
    (filterIdx p i xs).Sublist xs := by
  induction xs generalizing i with
  | nil => simp [filterIdx]
  | cons x xs ih =>
      simp only [filterIdx]
      split
      · exact (ih (i + 1)).cons₂ x
      · exact (ih (i + 1)).cons x

lemma filterIdx_length (p : Nat → Bool) (xs : List α) :
    ∀ i, (filterIdx p i xs).length = ((List.range' i xs.length).filter p).length := by
  induction xs with
  | nil => intro i; rfl
  | cons x xs ih =>
      intro i
      simp only [filterIdx, List.length_cons, List.range'_succ, List.filter_cons]
      by_cases hp : p i
      · simp [hp, ih (i + 1)]
      · simp [hp, ih (i + 1)]

lemma multiples_length_ge (n step : Nat) (h1 : 1 ≤ step) (h2 : 35 * step ≤ n) :
    35 ≤ ((List.range n).filter (fun j => j % step == 0)).length := by
  have hstep : 0 < step := h1
  have hsub : ((List.range 35).map (fun k => k * step)).Subperm
      ((List.range n).filter (fun j => j % step == 0)) := by
    apply List.Nodup.subperm
    · exact List.Nodup.map
        (fun a b hab => Nat.eq_of_mul_eq_mul_right hstep hab) (List.nodup_range 35)
    · intro x hx
      simp only [List.mem_map, List.mem_range] at hx
      obtain ⟨k, hk, rfl⟩ := hx
      simp only [List.mem_filter, List.mem_range]
      refine ⟨lt_of_lt_of_le ((Nat.mul_lt_mul_right hstep).mpr hk) h2, ?_⟩
      simp [Nat.mul_mod_left]
  simpa using hsub.length_le

/-- C2: for at most 35 frames the post-filter returns its input unchanged;
for more than 35 frames it keeps the frames at indices divisible by
`count / 35` and truncates, producing exactly 35 frames that form a strict,
order-preserving subsequence of the input. -/
theorem C2_postFilter_cap (frames : List String) :
    (frames.length ≤ 35 → postFilterFrames frames = frames)
    ∧ (35 < frames.length →
        (postFilterFrames frames).length = 35
        ∧ (postFilterFrames frames).Sublist frames
        ∧ postFilterFrames frames ≠ frames) := by
  constructor
  · intro h
    simp [postFilterFrames, Nat.not_lt.mpr h]
  · intro h
    have hstep : 1 ≤ frames.length / 35 :=
      (Nat.one_le_div_iff (by norm_num)).mpr (le_of_lt h)
    have h35 : 35 * (frames.length / 35) ≤ frames.length := by
      rw [mul_comm]
      exact Nat.div_mul_le_self frames.length 35
    have hlen : 35 ≤ (filterIdx (fun i => i % (frames.length / 35) == 0) 0 frames).length := by
      rw [filterIdx_length, ← List.range_eq_range']
      exact multiples_length_ge frames.length (frames.length / 35) hstep h35
    have hpost : postFilterFrames frames
        = (filterIdx (fun i => i % (frames.length / 35) == 0) 0 frames).take 35 := by
      simp [postFilterFrames, h]
    have hlength : (postFilterFrames frames).length = 35 := by
      rw [hpost, List.length_take]
      exact min_eq_left hlen
    refine ⟨hlength, ?_, ?_⟩
    · rw [hpost]
      exact (List.take_sublist _ _).trans (filterIdx_sublist _ _ _)
    · intro heq
      rw [heq] at hlength
      omega

/-- C2 witness: 40 frames are thinned to exactly 35; 3 frames pass through
unchanged. -/
theorem C2_witness :
    (35 < (List.replicate 40 "f").length
      ∧ (postFilterFrames (List.replicate 40 "f")).length = 35)
    ∧ ((List.replicate 3 "g").length ≤ 35
      ∧ postFilterFrames (List.replicate 3 "g") = List.replicate 3 "g") :=
  ⟨⟨by decide, ((C2_postFilter_cap (List.replicate 40 "f")).2 (by decide)).1⟩,
   ⟨by decide, (C2_postFilter_cap (List.replicate 3 "g")).1 (by decide)⟩⟩

/-! ## Helper lemmas for the chunking proofs (C3, C9) -/

lemma wellEdged_ne_nil {p : List Char} (h : wellEdged p = true) : p ≠ [] := by
  intro h0
  subst h0
  simp [wellEdged] at h

lemma wellEdged_head {p : List Char} (h : wellEdged p = true) :
    ∃ c, p.head? = some c ∧ c.isWhitespace = false := by
  unfold wellEdged at h
  cases hh : p.head? with
  | none => rw [hh] at h; simp at h
  | some c =>
      cases hl : p.getLast? with
      | none => rw [hh, hl] at h; simp at h
      | some d =>
          rw [hh, hl] at h
          simp only [Bool.and_eq_true, Bool.not_eq_true'] at h
          exact ⟨c, rfl, h.1⟩

lemma wellEdged_last {p : List Char} (h : wellEdged p = true) :
    ∃ d, p.getLast? = some d ∧ d.isWhitespace = false := by
  unfold wellEdged at h
  cases hh : p.head? with
  | none => rw [hh] at h; simp at h
  | some c =>
      cases hl : p.getLast? with
      | none => rw [hh, hl] at h; simp at h
      | some d =>
          rw [hh, hl] at h
          simp only [Bool.and_eq_true, Bool.not_eq_true'] at h
          exact ⟨d, rfl, h.2⟩

lemma wellEdged_mk {p : List Char} {c d : Char} (hc : p.head? = some c)
    (hd : p.getLast? = some d) (hcw : c.isWhitespace = false)
    (hdw : d.isWhitespace = false) : wellEdged p = true := by
  unfold wellEdged
  rw [hc, hd]
  simp [hcw, hdw]

/-- `trim` on a well-edged text followed by the separator strips exactly the
separator. -/
lemma jsTrim_append_sep {x : List Char} (h : wellEdged x = true) :
    jsTrim (x ++ sep) = x := by
  obtain ⟨c, hc, hcw⟩ := wellEdged_head h
  obtain ⟨d, hd, hdw⟩ := wellEdged_last h
  cases x with
  | nil => simp at hc
  | cons a t =>
      have hac : a = c := by simpa using hc
      subst hac
      unfold jsTrim
      have h1 : List.dropWhile Char.isWhitespace ((a :: t) ++ sep) = (a :: t) ++ sep := by
        rw [List.cons_append, List.dropWhile_cons, if_neg]
        simp [hcw]
      rw [h1, List.reverse_append]
      have h2 : sep.reverse = ['\n', '\n'] := rfl
      rw [h2]
      cases hrev : (a :: t).reverse with
      | nil => simp at hrev
      | cons d0 r =>
          have hd0 : (a :: t).getLast? = some d0 := by
            rw [← List.head?_reverse, hrev]
            rfl
          have hdd : d0 = d := by
            rw [hd] at hd0
            exact (Option.some.inj hd0).symm
          subst hdd
          show (List.dropWhile Char.isWhitespace ('\n' :: '\n' :: d0 :: r)).reverse = a :: t
          rw [List.dropWhile_cons, if_pos (by decide), List.dropWhile_cons,
            if_pos (by decide), List.dropWhile_cons, if_neg (by simp [hdw])]
          rw [← hrev, List.reverse_reverse]

lemma joinPara_cons (p : List Char) (ps : List (List Char)) (h : ps ≠ []) :
    joinPara (p :: ps) = p ++ sep ++ joinPara ps := by
  cases ps with
  | nil => contradiction
  | cons q qs => rfl

lemma joinPara_cons_cons (c : Char) (p : List Char) (ps : List (List Char)) :
    joinPara ((c :: p) :: ps) = c :: joinPara (p :: ps) := by
  cases ps with
  | nil => rfl
  | cons q qs => rfl

lemma splitPara_ne_nil (t : List Char) : splitPara t ≠ [] := by
  cases t with
  | nil => simp [splitPara]
  | cons c1 rest =>
      cases rest with
      | nil => simp [splitPara]
      | cons c2 r =>
          simp only [splitPara]
          split <;> simp

/-- Rejoining the paragraphs of a split reproduces the text. -/
lemma joinPara_splitPara (t : List Char) : joinPara (splitPara t) = t := by
  induction t using splitPara.induct with
  | case1 => rfl
  | case2 c => rfl
  | case3 c1 c2 rest h ih =>
      obtain ⟨rfl, rfl⟩ := h
      have hsp : splitPara ('\n' :: '\n' :: rest) = [] :: splitPara rest := by
        simp [splitPara]
      rw [hsp, joinPara_cons [] (splitPara rest) (splitPara_ne_nil rest), ih]
      rfl
  | case4 c1 c2 rest h ih =>
      simp only [splitPara, if_neg h]
      cases hr : splitPara (c2 :: rest) with
      | nil => exact absurd hr (splitPara_ne_nil (c2 :: rest))
      | cons hd tl =>
          rw [hr] at ih
          simp only [List.headD_cons, List.tail_cons]
          rw [joinPara_cons_cons, ih]

lemma joinPara_append (g h : List (List Char)) (hg : g ≠ []) (hh : h ≠ []) :
    joinPara (g ++ h) = joinPara g ++ sep ++ joinPara h := by
  induction g with
  | nil => contradiction
  | cons p g2 ih =>
      cases g2 with
      | nil =>
          rw [List.singleton_append, joinPara_cons p h hh]
          rfl
      | cons q g3 =>
          rw [List.cons_append, joinPara_cons p ((q :: g3) ++ h) (by simp),
            joinPara_cons p (q :: g3) (by simp), ih (by simp)]
          simp [List.append_assoc]

lemma wellEdged_append_mid (a mid b : List Char) (ha : wellEdged a = true)
    (hb : wellEdged b = true) : wellEdged (a ++ mid ++ b) = true := by
  obtain ⟨c, hc, hcw⟩ := wellEdged_head ha
  obtain ⟨d, hd, hdw⟩ := wellEdged_last hb
  refine wellEdged_mk (c := c) (d := d) ?_ ?_ hcw hdw
  · rw [List.append_assoc, List.head?_append_of_ne_nil _ (wellEdged_ne_nil ha)]
    exact hc
  · rw [List.getLast?_append_of_ne_nil _ (wellEdged_ne_nil hb)]
    exact hd

/-- A nonempty join of well-edged paragraphs is well-edged. -/
lemma joinPara_wellEdged (g : List (List Char)) (hg : g ≠ [])
    (hw : ∀ p ∈ g, wellEdged p = true) : wellEdged (joinPara g) = true := by
  induction g with
  | nil => contradiction
  | cons p g2 ih =>
      cases g2 with
      | nil => simpa [joinPara] using hw p (by simp)
      | cons q g3 =>
          rw [joinPara_cons p (q :: g3) (by simp)]
          exact wellEdged_append_mid _ _ _ (hw p (by simp))
            (ih (by simp) (fun r hr => hw r (by simp [hr])))

/-- Invariant of the `splitMessage` loop: with the current chunk holding the
well-edged group `group` (as built by the source: paragraphs joined by the
separator, plus one trailing separator) whose joined length is within the
limit, the loop appends to `chunks` a run of chunks that are each within the
limit and that rejoin to the remaining paragraphs prefixed by the group. -/
lemma splitMsgGo_spec (maxLength : Nat) (ps : List (List Char)) :
    ∀ (group chunks : List (List Char)),
      group ≠ [] →
      (∀ p ∈ group, wellEdged p = true) →
      (∀ p ∈ ps, wellEdged p = true) →
      (joinPara group).length ≤ maxLength →
      (∀ p ∈ ps, p.length ≤ maxLength) →
      ∃ rest, splitMsgGo maxLength ps (joinPara group ++ sep) chunks = chunks ++ rest
        ∧ (∀ c ∈ rest, c.length ≤ maxLength)
        ∧ joinPara rest = joinPara (group ++ ps) := by
  induction ps with
  | nil =>
      intro group chunks hgne hgw _ hglen _
      refine ⟨[joinPara group], ?_, ?_, by rw [List.append_nil]; rfl⟩
      · simp only [splitMsgGo]
        rw [if_neg (by simp [sep]), jsTrim_append_sep (joinPara_wellEdged group hgne hgw)]
      · intro c hc
        rw [List.mem_singleton] at hc
        subst hc
        exact hglen
  | cons p ps ih =>
      intro group chunks hgne hgw hpsw hglen hpslen
      have hpw : wellEdged p = true := hpsw p (by simp)
      have hplen : p.length ≤ maxLength := hpslen p (by simp)
      have hjoin1 : joinPara (group ++ [p]) = (joinPara group ++ sep) ++ p := by
        rw [joinPara_append group [p] hgne (by simp)]
        rfl
      simp only [splitMsgGo]
      by_cases hover : maxLength < ((joinPara group ++ sep) ++ p).length
      · rw [if_pos hover, if_neg (by simp [sep]),
          jsTrim_append_sep (joinPara_wellEdged group hgne hgw)]
        obtain ⟨rest, hrest, hlen, hjoin⟩ := ih [p] (chunks ++ [joinPara group])
          (by simp) (by simpa using hpw)
          (fun q hq => hpsw q (by simp [hq]))
          (by simpa [joinPara] using hplen)
          (fun q hq => hpslen q (by simp [hq]))
        refine ⟨joinPara group :: rest, ?_, ?_, ?_⟩
        · have hps : (p ++ sep) = joinPara [p] ++ sep := rfl
          rw [hps, hrest, List.append_assoc]
          rfl
        · intro c hc
          rcases List.mem_cons.mp hc with rfl | hc2
          · exact hglen
          · exact hlen c hc2
        · have hrne : rest ≠ [] := by
            intro h0
            rw [h0] at hjoin
            have : wellEdged (joinPara ([p] ++ ps)) = true :=
              joinPara_wellEdged _ (by simp)
                (by
                  intro q hq
                  rcases List.mem_append.mp hq with hq1 | hq2
                  · rw [List.mem_singleton] at hq1; subst hq1; exact hpw
                  · exact hpsw q (by simp [hq2]))
            exact wellEdged_ne_nil this hjoin.symm
          rw [joinPara_cons _ _ hrne, hjoin,
            ← joinPara_append group ([p] ++ ps) hgne (by simp)]
          rfl
      · rw [if_neg hover]
        have hglen2 : (joinPara (group ++ [p])).length ≤ maxLength := by
          rw [hjoin1]
          exact Nat.not_lt.mp hover
        obtain ⟨rest, hrest, hlen, hjoin⟩ := ih (group ++ [p]) chunks
          (by simp)
          (by
            intro q hq
            rcases List.mem_append.mp hq with hq1 | hq2
            · exact hgw q hq1
            · rw [List.mem_singleton] at hq2; subst hq2; exact hpw)
          (fun q hq => hpsw q (by simp [hq]))
          hglen2
          (fun q hq => hpslen q (by simp [hq]))
        refine ⟨rest, ?_, hlen, ?_⟩
        · have hcur : (joinPara group ++ sep) ++ p ++ sep = joinPara (group ++ [p]) ++ sep := by
            rw [hjoin1]
          rw [hcur]
          exact hrest
        · rw [hjoin, List.append_assoc]
          rfl

/-- C3 (corrected statement): for every text whose double-newline-separated
paragraphs are each nonempty, free of leading and trailing whitespace, and
at most 3900 characters long, `splitMessage(text, 3900)` yields chunks each
at most 3900 characters, and rejoining the chunks at paragraph boundaries
reproduces the original text — hence the original paragraphs in order, none
dropped, duplicated, or reordered. -/
theorem C3_chunk_roundtrip (text : List Char)
    (h : ∀ p ∈ splitPara text, wellEdged p = true ∧ p.length ≤ 3900) :
    (∀ c ∈ splitMessage text 3900, c.length ≤ 3900)
    ∧ joinPara (splitMessage text 3900) = text := by
  cases hq : splitPara text with
  | nil => exact absurd hq (splitPara_ne_nil text)
  | cons p ps =>
      have hp := h p (by rw [hq]; simp)
      have hps : ∀ q ∈ ps, wellEdged q = true ∧ q.length ≤ 3900 :=
        fun q hq2 => h q (by rw [hq]; simp [hq2])
      have step1 : splitMessage text 3900 = splitMsgGo 3900 ps (p ++ sep) [] := by
        unfold splitMessage
        rw [hq]
        simp only [splitMsgGo, List.nil_append]
        rw [if_neg (Nat.not_lt.mpr hp.2)]
      obtain ⟨rest, hrest, hlen, hjoin⟩ := splitMsgGo_spec 3900 ps [p] []
        (by simp) (by simpa using hp.1) (fun q hq2 => (hps q hq2).1)
        (by simpa [joinPara] using hp.2) (fun q hq2 => (hps q hq2).2)
      have hmsg : splitMessage text 3900 = rest := by
        rw [step1]
        have : (p ++ sep) = joinPara [p] ++ sep := rfl
        rw [this, hrest]
        simp
      constructor
      · rw [hmsg]
        exact hlen
      · rw [hmsg, hjoin]
        show joinPara (p :: ps) = text
        rw [← hq, joinPara_splitPara]

/-- C3 counterexample to the claim as stated: the single paragraph of the
text consisting of a space then the letter a is within the length bound, yet
the chunks (here the single chunk obtained after the source's `trim`) do not
reproduce it — the leading space is lost. -/
theorem C3_counterexample :
    (∀ p ∈ splitPara [' ', 'a'], p.length ≤ 3900)
    ∧ splitMessage [' ', 'a'] 3900 = [['a']]
    ∧ joinPara (splitMessage [' ', 'a'] 3900) ≠ [' ', 'a'] := by
  refine ⟨?_, rfl, by decide⟩
  decide

/-- C3 witness: a two-paragraph well-edged text is chunked within bounds and
rejoins to itself. -/
theorem C3_witness :
    (∀ c ∈ splitMessage ['a', 'b', '\n', '\n', 'c', 'd'] 3900, c.length ≤ 3900)
    ∧ joinPara (splitMessage ['a', 'b', '\n', '\n', 'c', 'd'] 3900)
      = ['a', 'b', '\n', '\n', 'c', 'd'] :=
  C3_chunk_roundtrip ['a', 'b', '\n', '\n', 'c', 'd'] (by decide)

/-! ## C9: oversized single paragraph -/

lemma splitMsgGo_mem_acc (maxLength : Nat) (ps : List (List Char)) :
    ∀ (current : List Char) (chunks : List (List Char)) (c : List Char),
      c ∈ chunks → c ∈ splitMsgGo maxLength ps current chunks := by
  induction ps with
  | nil =>
      intro current chunks c hc
      simp only [splitMsgGo]
      split
      · exact hc
      · exact List.mem_append_left _ hc
  | cons p ps ih =>
      intro current chunks c hc
      simp only [splitMsgGo]
      split
      · apply ih
        split
        · exact hc
        · exact List.mem_append_left _ hc
      · exact ih _ _ _ hc

lemma splitMsgGo_loaded_oversized (maxLength : Nat) {p : List Char}
    (hlen : maxLength < p.length) (hw : wellEdged p = true)
    (ps : List (List Char)) (chunks : List (List Char)) :
    p ∈ splitMsgGo maxLength ps (p ++ sep) chunks := by
  have htrim : jsTrim (p ++ sep) = p := jsTrim_append_sep hw
  have hne : (p ++ sep).isEmpty = false := by simp [sep]
  cases ps with
  | nil =>
      simp only [splitMsgGo]
      rw [if_neg (by simp [hne]), htrim]
      simp
  | cons q ps2 =>
      simp only [splitMsgGo]
      have hover : maxLength < ((p ++ sep) ++ q).length := by
        simp only [List.length_append]
        omega
      rw [if_pos hover, if_neg (by simp [hne]), htrim]
      exact splitMsgGo_mem_acc _ _ _ _ _ (by simp)

lemma splitMsgGo_mem_oversized (maxLength : Nat) {p : List Char}
    (hlen : maxLength < p.length) (hw : wellEdged p = true)
    (ps : List (List Char)) :
    ∀ (current : List Char) (chunks : List (List Char)), p ∈ ps →
      p ∈ splitMsgGo maxLength ps current chunks := by
  induction ps with
  | nil => intro current chunks hmem; cases hmem
  | cons q ps2 ih =>
      intro current chunks hmem
      rcases List.mem_cons.mp hmem with rfl | hmem2
      · simp only [splitMsgGo]
        have hover : maxLength < (current ++ p).length := by
          simp only [List.length_append]
          omega
        rw [if_pos hover]
        exact splitMsgGo_loaded_oversized maxLength hlen hw ps2 _
      · simp only [splitMsgGo]
        split
        · exact ih _ _ hmem2
        · exact ih _ _ hmem2

/-- C9 (corrected statement): for every text, chunk limit and paragraph of
the text that exceeds the limit and has no leading or trailing whitespace,
`splitMessage` emits that paragraph intact as one of its chunks — never
splitting inside it or truncating it — so the per-chunk size bound is
violated by that chunk.  (A paragraph with whitespace at an edge is instead
emitted in trimmed form, by the source's `trim` on every pushed chunk.) -/
theorem C9_oversized_paragraph (text : List Char) (maxLength : Nat)
    (p : List Char) (hp : p ∈ splitPara text) (hlen : maxLength < p.length)
    (hw : wellEdged p = true) :
    p ∈ splitMessage text maxLength ∧ maxLength < p.length := by
  refine ⟨?_, hlen⟩
  unfold splitMessage
  exact splitMsgGo_mem_oversized maxLength hlen hw (splitPara text) [] [] hp

/-- C9 counterexample to the claim as stated: a single paragraph starting
with a space and longer than the limit is not emitted intact — its chunk is
the trimmed paragraph. -/
theorem C9_counterexample :
    splitPara [' ', 'a', 'b', 'c'] = [[' ', 'a', 'b', 'c']]
    ∧ 2 < ([' ', 'a', 'b', 'c'] : List Char).length
    ∧ splitMessage [' ', 'a', 'b', 'c'] 2 = [['a', 'b', 'c']]
    ∧ [' ', 'a', 'b', 'c'] ∉ splitMessage [' ', 'a', 'b', 'c'] 2 := by
  decide

/-- C9 witness: a well-edged three-character paragraph above a limit of 2 is
emitted intact. -/
theorem C9_witness :
    ['a', 'b', 'c'] ∈ splitMessage ['a', 'b', 'c'] 2 ∧
      2 < (['a', 'b', 'c'] : List Char).length :=
  C9_oversized_paragraph ['a', 'b', 'c'] 2 ['a', 'b', 'c']
    (by decide) (by decide) (by decide)

end MediaDownloader
